import Mathlib

/-!
Verification development for `react-byblos` (src/src/Byblos.tsx).

The component wires a three-stage asynchronous pipeline
(bytes fetch → document decode → page decode) built on a `useFetch` hook
plus a `suspend` sentinel, and derives `loading` / `error` / rendered
output from the three stage results.

`Byblos.tsx` is present in the repository snapshot; the hook modules
`use-fetch.ts` and `suspend.ts` that it imports are not, so the runner
(`AsyncStageRunner`) and the sentinel (`DeferredSignal`) are modelled from
the specification; everything else is translated from the source.
-/

namespace Byblos

/-- State of one asynchronous stage, `idle | pending | success(data) | failure(error)`
(the `status` / `data` fields of a `useFetch` result as consumed by `Byblos.tsx`). -/
inductive StageResult (T E : Type) where
  | idle : StageResult T E
  | pending : StageResult T E
  | success (data : T) : StageResult T E
  | failure (error : E) : StageResult T E
deriving DecidableEq

namespace StageResult

/-- Mirrors the source test `r.status === 'pending'`. -/
def isPending {T E : Type} : StageResult T E → Bool
  | .pending => true
  | _ => false

/-- Mirrors the source test `r.status === 'success'`. -/
def isSuccess {T E : Type} : StageResult T E → Bool
  | .success _ => true
  | _ => false

/-- Mirrors the source test `r.status === 'failure'`. -/
def isFailure {T E : Type} : StageResult T E → Bool
  | .failure _ => true
  | _ => false

/-- The error carried by a `failure`, if any. -/
def errorData {T E : Type} : StageResult T E → Option E
  | .failure e => some e
  | _ => none

end StageResult

section Derived

variable {B D P E : Type}

/-- Source `Byblos.tsx` lines 118-120:
`loading = bufferResult.status === 'pending' || documentResult.status === 'pending' || pageResult.status === 'pending'`. -/
def loadingOf (b : StageResult B E) (d : StageResult D E) (p : StageResult P E) : Bool :=
  b.isPending || d.isPending || p.isPending

/-- Source `Byblos.tsx` lines 139-141:
`error = (bufferResult.status === 'failure' && bufferResult.data) || (documentResult.status === 'failure' && documentResult.data) || (pageResult.status === 'failure' && pageResult.data)`.
In JS each conjunct evaluates to the stage's `data` exactly when that stage is
`failure` (failure data are `Error` objects, hence truthy) and to `false`
otherwise, so the `||` chain yields the first failing stage's error, or `false`.
The JS value `false` is modelled as `none`. -/
def pipelineError (b : StageResult B E) (d : StageResult D E) (p : StageResult P E) : Option E :=
  match b with
  | .failure e => some e
  | _ =>
    match d with
    | .failure e => some e
    | _ =>
      match p with
      | .failure e => some e
      | _ => none

/-- What the component returns (source lines 174-193): the loading fallback,
the error fallback, or the canvas element. -/
inductive Rendered where
  | loadingFallback : Rendered
  | errorFallback : Rendered
  | canvasElement : Rendered
deriving DecidableEq

/-- Source `Byblos.tsx` lines 174-193:
`if (loading) return loadingFallback; if (error) return errorFallback; return <canvas/>`. -/
def renderedOf (b : StageResult B E) (d : StageResult D E) (p : StageResult P E) : Rendered :=
  if loadingOf b d p then .loadingFallback
  else if (pipelineError b d p).isSome then .errorFallback
  else .canvasElement

end Derived

/-- A producer's synchronous decision: either it defers (returns the
`suspend()` sentinel — the spec's DeferredSignal) or it proceeds with a
payload describing the asynchronous request it makes. -/
inductive ProducerStep (A : Type) where
  | deferred : ProducerStep A
  | proceed (a : A) : ProducerStep A
deriving DecidableEq

/-- The settled result of an asynchronous run: a value or an error. -/
inductive RunRes (T E : Type) where
  | value (v : T) : RunRes T E
  | error (e : E) : RunRes T E
deriving DecidableEq

section Producers

variable {B D P E : Type}

/-- Source `Byblos.tsx` lines 82-90 (the `documentResult` producer):
if `bufferResult.status === 'success'` decode the buffer into a document
(`getDocument(bufferResult.data)`), else `return suspend()`.
(The `GlobalWorkerOptions.workerSrc` assignment is decoder configuration with
no effect on pipeline state.) -/
def documentProducer (bufferResult : StageResult B E) : ProducerStep B :=
  match bufferResult with
  | .success b => .proceed b
  | _ => .deferred

/-- Source `Byblos.tsx` lines 101-106 (the `pageResult` producer):
if `documentResult.status === 'success'` request
`documentResult.data.getPage(page ?? 1)`, else `return suspend()`.
The payload is the document handle together with the requested 1-based index. -/
def pageProducer (documentResult : StageResult D E) (page : Option Nat) : ProducerStep (D × Nat) :=
  match documentResult with
  | .success d => .proceed (d, page.getD 1)
  | _ => .deferred

end Producers

/-- Modelled from the spec: `use-fetch.ts` (the AsyncStageRunner) is not in the
repository snapshot. Per spec §3-§4.1 a runner remembers the last dependency
key it observed, the current RunToken (minted on every key change), and its
published `StageResult`. `gen` counts publications of a fresh state object
(spec §3: dependency keys compare upstream results by identity; a downstream
key embeds the upstream runner's `gen`). -/
structure Runner (K T E : Type) where
  lastKey : Option K
  token : Nat
  gen : Nat
  result : StageResult T E
deriving DecidableEq

namespace Runner

/-- A freshly mounted runner: no key observed, no run issued, `Idle`. -/
def mk0 (K T E : Type) : Runner K T E :=
  { lastKey := none, token := 0, gen := 0, result := .idle }

end Runner

/-- How a settled run is published: a value becomes `Success`, an error
becomes `Failure` (spec §4.1). -/
def applyRes {T E : Type} : RunRes T E → StageResult T E
  | .value v => .success v
  | .error e => .failure e

/-- Modelled from the spec (§3, §4.1): completion of a run that settled with
`res` and was issued under RunToken `t`. The result is applied iff `t` still
equals the runner's current token; a stale result is discarded silently. An
applied result publishes a fresh state object (`gen + 1`). -/
def Runner.complete {K T E : Type} (r : Runner K T E) (t : Nat) (res : RunRes T E) :
    Runner K T E :=
  if t = r.token then
    { r with result := applyRes res, gen := r.gen + 1 }
  else r

/-- Modelled from the spec (§4.1-§4.2): one `run(producer, key)` call of a
render pass. If the key equals the last observed key, nothing happens.
Otherwise a new RunToken is minted and: if the producer defers (DeferredSignal,
spec §7-§8: a blocked stage remains `Idle`) the stage publishes `Idle` and no
run is issued; if it proceeds, the stage publishes `Pending` and a run is
issued whose eventual outcome `orac (token) payload` joins the in-flight list. -/
def startStage {K T E A : Type} [DecidableEq K] (r : Runner K T E) (k : K)
    (pr : ProducerStep A) (orac : Nat → A → RunRes T E)
    (infl : List (Nat × RunRes T E)) : Runner K T E × List (Nat × RunRes T E) :=
  if r.lastKey = some k then (r, infl)
  else
    match pr with
    | .deferred =>
      ({ lastKey := some k, token := r.token + 1, gen := r.gen + 1, result := .idle }, infl)
    | .proceed a =>
      ({ lastKey := some k, token := r.token + 1, gen := r.gen + 1, result := .pending },
        (r.token + 1, orac (r.token + 1) a) :: infl)

/-- The component's props that feed the pipeline: `bkey` stands for the bytes
stage's dependency tuple `[props.type, props.value, props.fetchOptions]`
(source line 79) and `page` is the raw `page` prop (`page?: number`,
source lines 45, 100). -/
structure Props (BK : Type) where
  bkey : BK
  page : Option Nat
deriving DecidableEq

/-- The external collaborators (spec §6): the byte transport and the decoder.
Outcomes are indexed by the RunToken of the requesting run so that distinct
runs of one stage may settle differently. -/
structure Env (BK B D P E : Type) where
  fetchOutcome : Nat → BK → RunRes B E
  docOutcome : Nat → B → RunRes D E
  pageOutcome : Nat → D → Nat → RunRes P E

/-- The pipeline's full state: the props, the three runners (source lines
74-79 `bufferResult`, 82-90 `documentResult`, 101-106 `pageResult`) and their
in-flight runs. The document stage's dependency key is `[bufferResult]`
(identity of the published object, modelled by `bytes.gen`); the page stage's
key is `[documentResult, page]` (source lines 90, 106). -/
structure PState (BK B D P E : Type) where
  props : Props BK
  bytes : Runner BK B E
  doc : Runner Nat D E
  page : Runner (Nat × Option Nat) P E
  bytesIn : List (Nat × RunRes B E)
  docIn : List (Nat × RunRes D E)
  pageIn : List (Nat × RunRes P E)
deriving DecidableEq

section Pipeline

variable {BK B D P E : Type} [DecidableEq BK]

/-- One render pass driven to quiescence: each `useFetch` call observes its
current dependency key (top-down, so a stage restarted in this pass is seen
restarted by the stages below it, exactly as the cascade of re-renders
triggered by each `setState` settles). The bytes producer (source lines 74-79)
always proceeds — it fetches the URL or wraps the Blob; the document and page
producers defer unless their upstream stage is `Success`. -/
def renderPass (env : Env BK B D P E) (s : PState BK B D P E) : PState BK B D P E :=
  let bp := startStage s.bytes s.props.bkey (.proceed s.props.bkey) env.fetchOutcome s.bytesIn
  let dp := startStage s.doc bp.1.gen (documentProducer bp.1.result) env.docOutcome s.docIn
  let pp := startStage s.page (dp.1.gen, s.props.page) (pageProducer dp.1.result s.props.page)
    (fun t a => env.pageOutcome t a.1 a.2) s.pageIn
  { props := s.props, bytes := bp.1, doc := dp.1, page := pp.1,
    bytesIn := bp.2, docIn := dp.2, pageIn := pp.2 }

/-- Mounting the pipeline with initial props: three idle runners, then the
first render pass. -/
def mount (env : Env BK B D P E) (p0 : Props BK) : PState BK B D P E :=
  renderPass env
    { props := p0, bytes := Runner.mk0 BK B E, doc := Runner.mk0 Nat D E,
      page := Runner.mk0 (Nat × Option Nat) P E, bytesIn := [], docIn := [], pageIn := [] }

/-- An external event: the host re-renders with new props, or one of a
stage's in-flight runs settles (`doneX i` settles the `i`-th in-flight run of
stage X — the scheduler is free to settle runs in any order). -/
inductive Ev (BK : Type) where
  | setProps (p : Props BK) : Ev BK
  | doneBytes (i : Nat) : Ev BK
  | doneDoc (i : Nat) : Ev BK
  | donePage (i : Nat) : Ev BK

/-- Settle the `i`-th in-flight run of one stage: remove it from the list and
let the runner process its token and result. Out-of-range indices are no-ops. -/
def completeRun {K T E : Type} (r : Runner K T E) (infl : List (Nat × RunRes T E)) (i : Nat) :
    Runner K T E × List (Nat × RunRes T E) :=
  match infl[i]? with
  | none => (r, infl)
  | some (t, res) => (r.complete t res, infl.eraseIdx i)

/-- One step of the pipeline: apply the event, then re-render (spec §4.1: any
state update re-invokes `run` on every stage with its current key). -/
def step (env : Env BK B D P E) (s : PState BK B D P E) : Ev BK → PState BK B D P E
  | .setProps p => renderPass env { s with props := p }
  | .doneBytes i =>
    let c := completeRun s.bytes s.bytesIn i
    renderPass env { s with bytes := c.1, bytesIn := c.2 }
  | .doneDoc i =>
    let c := completeRun s.doc s.docIn i
    renderPass env { s with doc := c.1, docIn := c.2 }
  | .donePage i =>
    let c := completeRun s.page s.pageIn i
    renderPass env { s with page := c.1, pageIn := c.2 }

/-- Run the pipeline from mount through a sequence of events. -/
def runP (env : Env BK B D P E) (p0 : Props BK) (evs : List (Ev BK)) : PState BK B D P E :=
  evs.foldl (step env) (mount env p0)

/-- A state is reachable if some initial props and event sequence produce it. -/
def Reachable (env : Env BK B D P E) (s : PState BK B D P E) : Prop :=
  ∃ p0 evs, runP env p0 evs = s

/-- The pipeline's surfaced error at a state (source lines 139-141). -/
def errorOf (s : PState BK B D P E) : Option E :=
  pipelineError s.bytes.result s.doc.result s.page.result

/-- The pipeline's `loading` flag at a state (source lines 118-120). -/
def loadingAt (s : PState BK B D P E) : Bool :=
  loadingOf s.bytes.result s.doc.result s.page.result

/-- What the component renders at a state (source lines 174-193). -/
def renderedAt (s : PState BK B D P E) : Rendered :=
  renderedOf s.bytes.result s.doc.result s.page.result

end Pipeline

section Invariant

variable {BK B D P E : Type} [DecidableEq BK]

/-- In-flight runs carry tokens no newer than the stage's current token, and
no two in-flight runs share a token (one run is issued per minted token). -/
def TokOK {T : Type} (tok : Nat) (infl : List (Nat × RunRes T E)) : Prop :=
  (∀ x ∈ infl, x.1 ≤ tok) ∧ infl.Pairwise (fun a b => a.1 ≠ b.1)

/-- Only a stage whose published result is `Pending` can have an in-flight
run under the current token: a deferred start issues no run, and an applied
completion consumes the current run. -/
def CurPend {T : Type} (tok : Nat) (resl : StageResult T E) (infl : List (Nat × RunRes T E)) :
    Prop :=
  ∀ x ∈ infl, x.1 = tok → resl = .pending

/-- Invariant of every reachable pipeline state: each runner's last observed
key is the current key of its stage, a downstream stage is `Idle` exactly when
its upstream stage is not `Success` (the DeferredSignal discipline), and the
in-flight-run bookkeeping (`TokOK`, `CurPend`) holds for each stage. -/
structure Inv (s : PState BK B D P E) : Prop where
  kb : s.bytes.lastKey = some s.props.bkey
  kd : s.doc.lastKey = some s.bytes.gen
  kp : s.page.lastKey = some (s.doc.gen, s.props.page)
  docIdle : s.doc.result = .idle ↔ s.bytes.result.isSuccess = false
  pageIdle : s.page.result = .idle ↔ s.doc.result.isSuccess = false
  tb : TokOK s.bytes.token s.bytesIn
  td : TokOK s.doc.token s.docIn
  tp : TokOK s.page.token s.pageIn
  cpb : CurPend s.bytes.token s.bytes.result s.bytesIn
  cpd : CurPend s.doc.token s.doc.result s.docIn
  cpp : CurPend s.page.token s.page.result s.pageIn

/-- A render pass over a state whose runners already observed the current
keys changes nothing. -/
theorem renderPass_quiescent (env : Env BK B D P E) {s : PState BK B D P E}
    (h1 : s.bytes.lastKey = some s.props.bkey)
    (h2 : s.doc.lastKey = some s.bytes.gen)
    (h3 : s.page.lastKey = some (s.doc.gen, s.props.page)) :
    renderPass env s = s := by
  obtain ⟨pr, rb, rd, rp, lb, ld, lp⟩ := s
  simp only at h1 h2 h3
  simp [renderPass, startStage, h1, h2, h3]

/-- Erasing the element at an index from a token-distinct list removes every
occurrence of that element's token. -/
theorem eraseIdx_token_gone {T : Type} :
    ∀ (l : List (Nat × RunRes T E)) (i : Nat) (t : Nat) (res : RunRes T E),
      l.Pairwise (fun a b => a.1 ≠ b.1) → l[i]? = some (t, res) →
      ∀ x ∈ l.eraseIdx i, x.1 ≠ t
  | [], i, t, res, _, hi => by simp at hi
  | hd :: tl, 0, t, res, hp, hi => by
    simp only [List.getElem?_cons_zero, Option.some.injEq] at hi
    intro x hx
    have := (List.pairwise_cons.mp hp).1 x hx
    rw [hi] at this
    exact fun hxt => this hxt.symm
  | hd :: tl, i + 1, t, res, hp, hi => by
    simp only [List.getElem?_cons_succ] at hi
    intro x hx
    rcases List.mem_cons.mp hx with rfl | hx
    · exact (List.pairwise_cons.mp hp).1 _ (List.getElem?_mem hi)
    · exact eraseIdx_token_gone tl i t res (List.pairwise_cons.mp hp).2 hi x hx

/-- The `TokOK` bookkeeping survives erasing an in-flight run. -/
theorem TokOK.drop {T : Type} {tok : Nat} {infl : List (Nat × RunRes T E)}
    (h : TokOK tok infl) (i : Nat) : TokOK tok (infl.eraseIdx i) :=
  ⟨fun x hx => h.1 x ((List.eraseIdx_sublist infl i).mem hx),
    h.2.sublist (List.eraseIdx_sublist infl i)⟩

/-- A freshly issued run under a freshly minted token keeps `TokOK`. -/
theorem TokOK.cons_fresh {T : Type} {tok : Nat} {infl : List (Nat × RunRes T E)}
    (h : TokOK tok infl) (res : RunRes T E) :
    TokOK (tok + 1) ((tok + 1, res) :: infl) := by
  refine ⟨?_, ?_⟩
  · intro x hx
    rcases List.mem_cons.mp hx with rfl | hx
    · exact le_refl _
    · exact Nat.le_succ_of_le (h.1 x hx)
  · exact List.pairwise_cons.mpr
      ⟨fun x hx => Nat.ne_of_gt (Nat.lt_succ_of_le (h.1 x hx)), h.2⟩

/-- After minting a fresh token, no pre-existing run is current. -/
theorem TokOK.mint {T : Type} {tok : Nat} {infl : List (Nat × RunRes T E)}
    (h : TokOK tok infl) (resl : StageResult T E) : CurPend (tok + 1) resl infl := by
  intro x hx hxt
  exact absurd ((hxt ▸ h.1 x hx : tok + 1 ≤ tok)) (by omega)

/-- A stage that just published `Pending` satisfies `CurPend` outright. -/
theorem CurPend.of_pending {T : Type} {tok : Nat} {infl : List (Nat × RunRes T E)} :
    CurPend tok (StageResult.pending (T := T) (E := E)) infl := by
  intro x _ _
  rfl

/-- When a result is applied, the current run has been erased and no other
in-flight run is current, so `CurPend` holds vacuously afterward. -/
theorem CurPend.after_apply {T : Type} {tok : Nat} {infl : List (Nat × RunRes T E)}
    {i : Nat} {res : RunRes T E}
    (h : TokOK tok infl) (hi : infl[i]? = some (tok, res)) (resl : StageResult T E) :
    CurPend tok resl (infl.eraseIdx i) := by
  intro x hx hxt
  exact absurd hxt (eraseIdx_token_gone infl i tok res h.2 hi x hx)

/-- The `CurPend` bookkeeping survives erasing an in-flight run (result and token unchanged). -/
theorem CurPend.unaffected {T : Type} {tok : Nat} {resl : StageResult T E}
    {infl : List (Nat × RunRes T E)} (h : CurPend tok resl infl) (i : Nat) :
    CurPend tok resl (infl.eraseIdx i) :=
  fun x hx => h x ((List.eraseIdx_sublist infl i).mem hx)

end Invariant

section StepChar

variable {BK B D P E : Type} [DecidableEq BK]
variable (env : Env BK B D P E) {s : PState BK B D P E}

/-- Re-rendering with identical props changes nothing. -/
theorem step_setProps_same (h : Inv s) :
    step env s (.setProps s.props) = s := by
  have : ({ s with props := s.props } : PState BK B D P E) = s := rfl
  rw [step, this]
  exact renderPass_quiescent env h.kb h.kd h.kp

/-- Re-rendering with the bytes key unchanged restarts neither the bytes nor
the document stage; only the page stage reacts to its (possibly changed) key. -/
theorem step_setProps_sameKey (h : Inv s) {p : Props BK} (hk : p.bkey = s.props.bkey) :
    step env s (.setProps p) =
      { s with
        props := p
        page := (startStage s.page (s.doc.gen, p.page)
          (pageProducer s.doc.result p.page)
          (fun t a => env.pageOutcome t a.1 a.2) s.pageIn).1
        pageIn := (startStage s.page (s.doc.gen, p.page)
          (pageProducer s.doc.result p.page)
          (fun t a => env.pageOutcome t a.1 a.2) s.pageIn).2 } := by
  obtain ⟨pr, rb, rd, rp, lb, ld, lp⟩ := s
  have h1 := h.kb
  have h2 := h.kd
  simp only at h1 h2
  simp [step, renderPass, startStage, h1, h2, hk]

/-- Re-rendering with a changed bytes key restarts the whole pipeline: the
bytes stage re-fetches (`Pending`, fresh token, fresh run), and the document
and page stages are blocked by the DeferredSignal (`Idle`). -/
theorem step_setProps_newKey (h : Inv s) {p : Props BK} (hk : p.bkey ≠ s.props.bkey) :
    step env s (.setProps p) =
      { props := p,
        bytes := ⟨some p.bkey, s.bytes.token + 1, s.bytes.gen + 1, .pending⟩,
        doc := ⟨some (s.bytes.gen + 1), s.doc.token + 1, s.doc.gen + 1, .idle⟩,
        page := ⟨some (s.doc.gen + 1, p.page), s.page.token + 1, s.page.gen + 1, .idle⟩,
        bytesIn := (s.bytes.token + 1, env.fetchOutcome (s.bytes.token + 1) p.bkey) :: s.bytesIn,
        docIn := s.docIn, pageIn := s.pageIn } := by
  obtain ⟨pr, rb, rd, rp, lb, ld, lp⟩ := s
  have h1 := h.kb
  have h2 := h.kd
  have h3 := h.kp
  simp only at h1 h2 h3
  simp [step, renderPass, startStage, h1, h2, h3, Ne.symm hk, documentProducer, pageProducer]

/-- Settling a nonexistent run index is a no-op. -/
theorem step_doneBytes_none (h : Inv s) {i : Nat} (hi : s.bytesIn[i]? = none) :
    step env s (.doneBytes i) = s := by
  rw [step, completeRun, hi]
  exact renderPass_quiescent env h.kb h.kd h.kp

/-- Settling a superseded bytes run (stale token) only removes it from the
in-flight list: no published state changes. -/
theorem step_doneBytes_stale (h : Inv s) {i t : Nat} {res : RunRes B E}
    (hi : s.bytesIn[i]? = some (t, res)) (ht : t ≠ s.bytes.token) :
    step env s (.doneBytes i) = { s with bytesIn := s.bytesIn.eraseIdx i } := by
  rw [step, completeRun, hi]
  simp only [Runner.complete, if_neg ht]
  exact renderPass_quiescent env h.kb h.kd h.kp

/-- Settling the current bytes run successfully publishes `Success`, restarts
the document stage (`Pending`, fresh decode run), and blocks the page stage. -/
theorem step_doneBytes_value (h : Inv s) {i t : Nat} {v : B}
    (hi : s.bytesIn[i]? = some (t, .value v)) (ht : t = s.bytes.token) :
    step env s (.doneBytes i) =
      { props := s.props,
        bytes := ⟨s.bytes.lastKey, s.bytes.token, s.bytes.gen + 1, .success v⟩,
        doc := ⟨some (s.bytes.gen + 1), s.doc.token + 1, s.doc.gen + 1, .pending⟩,
        page := ⟨some (s.doc.gen + 1, s.props.page), s.page.token + 1, s.page.gen + 1, .idle⟩,
        bytesIn := s.bytesIn.eraseIdx i,
        docIn := (s.doc.token + 1, env.docOutcome (s.doc.token + 1) v) :: s.docIn,
        pageIn := s.pageIn } := by
  obtain ⟨pr, rb, rd, rp, lb, ld, lp⟩ := s
  have h1 := h.kb
  have h2 := h.kd
  have h3 := h.kp
  simp only at h1 h2 h3 hi ht
  rw [step]
  simp only [completeRun, hi, Runner.complete, if_pos ht]
  simp [renderPass, startStage, h1, h2, h3, applyRes, documentProducer, pageProducer]

/-- Settling the current bytes run with an error publishes `Failure` and
blocks both downstream stages (`Idle`). -/
theorem step_doneBytes_error (h : Inv s) {i t : Nat} {e : E}
    (hi : s.bytesIn[i]? = some (t, .error e)) (ht : t = s.bytes.token) :
    step env s (.doneBytes i) =
      { props := s.props,
        bytes := ⟨s.bytes.lastKey, s.bytes.token, s.bytes.gen + 1, .failure e⟩,
        doc := ⟨some (s.bytes.gen + 1), s.doc.token + 1, s.doc.gen + 1, .idle⟩,
        page := ⟨some (s.doc.gen + 1, s.props.page), s.page.token + 1, s.page.gen + 1, .idle⟩,
        bytesIn := s.bytesIn.eraseIdx i,
        docIn := s.docIn, pageIn := s.pageIn } := by
  obtain ⟨pr, rb, rd, rp, lb, ld, lp⟩ := s
  have h1 := h.kb
  have h2 := h.kd
  have h3 := h.kp
  simp only at h1 h2 h3 hi ht
  rw [step]
  simp only [completeRun, hi, Runner.complete, if_pos ht]
  simp [renderPass, startStage, h1, h2, h3, applyRes, documentProducer, pageProducer]

/-- Settling a nonexistent document run index is a no-op. -/
theorem step_doneDoc_none (h : Inv s) {i : Nat} (hi : s.docIn[i]? = none) :
    step env s (.doneDoc i) = s := by
  rw [step, completeRun, hi]
  exact renderPass_quiescent env h.kb h.kd h.kp

/-- Settling a superseded document run (stale token) only removes it from the
in-flight list: no published state changes. -/
theorem step_doneDoc_stale (h : Inv s) {i t : Nat} {res : RunRes D E}
    (hi : s.docIn[i]? = some (t, res)) (ht : t ≠ s.doc.token) :
    step env s (.doneDoc i) = { s with docIn := s.docIn.eraseIdx i } := by
  rw [step, completeRun, hi]
  simp only [Runner.complete, if_neg ht]
  exact renderPass_quiescent env h.kb h.kd h.kp

/-- Settling the current document run successfully publishes `Success` and
restarts the page stage, which requests `page ?? 1` from the new handle. -/
theorem step_doneDoc_value (h : Inv s) {i t : Nat} {v : D}
    (hi : s.docIn[i]? = some (t, .value v)) (ht : t = s.doc.token) :
    step env s (.doneDoc i) =
      { props := s.props,
        bytes := s.bytes,
        doc := ⟨s.doc.lastKey, s.doc.token, s.doc.gen + 1, .success v⟩,
        page := ⟨some (s.doc.gen + 1, s.props.page), s.page.token + 1, s.page.gen + 1, .pending⟩,
        bytesIn := s.bytesIn,
        docIn := s.docIn.eraseIdx i,
        pageIn := (s.page.token + 1,
          env.pageOutcome (s.page.token + 1) v (s.props.page.getD 1)) :: s.pageIn } := by
  obtain ⟨pr, rb, rd, rp, lb, ld, lp⟩ := s
  have h1 := h.kb
  have h2 := h.kd
  have h3 := h.kp
  simp only at h1 h2 h3 hi ht
  rw [step]
  simp only [completeRun, hi, Runner.complete, if_pos ht]
  simp [renderPass, startStage, h1, h2, h3, applyRes, documentProducer, pageProducer]

/-- Settling the current document run with an error publishes `Failure` and
blocks the page stage (`Idle`). -/
theorem step_doneDoc_error (h : Inv s) {i t : Nat} {e : E}
    (hi : s.docIn[i]? = some (t, .error e)) (ht : t = s.doc.token) :
    step env s (.doneDoc i) =
      { props := s.props,
        bytes := s.bytes,
        doc := ⟨s.doc.lastKey, s.doc.token, s.doc.gen + 1, .failure e⟩,
        page := ⟨some (s.doc.gen + 1, s.props.page), s.page.token + 1, s.page.gen + 1, .idle⟩,
        bytesIn := s.bytesIn,
        docIn := s.docIn.eraseIdx i,
        pageIn := s.pageIn } := by
  obtain ⟨pr, rb, rd, rp, lb, ld, lp⟩ := s
  have h1 := h.kb
  have h2 := h.kd
  have h3 := h.kp
  simp only at h1 h2 h3 hi ht
  rw [step]
  simp only [completeRun, hi, Runner.complete, if_pos ht]
  simp [renderPass, startStage, h1, h2, h3, applyRes, documentProducer, pageProducer]

/-- Settling a nonexistent page run index is a no-op. -/
theorem step_donePage_none (h : Inv s) {i : Nat} (hi : s.pageIn[i]? = none) :
    step env s (.donePage i) = s := by
  rw [step, completeRun, hi]
  exact renderPass_quiescent env h.kb h.kd h.kp

/-- Settling a superseded page run (stale token) only removes it from the
in-flight list: no published state changes. -/
theorem step_donePage_stale (h : Inv s) {i t : Nat} {res : RunRes P E}
    (hi : s.pageIn[i]? = some (t, res)) (ht : t ≠ s.page.token) :
    step env s (.donePage i) = { s with pageIn := s.pageIn.eraseIdx i } := by
  rw [step, completeRun, hi]
  simp only [Runner.complete, if_neg ht]
  exact renderPass_quiescent env h.kb h.kd h.kp

/-- Settling the current page run applies its result to the page stage; no
stage is downstream of it, so nothing else changes. -/
theorem step_donePage_current (h : Inv s) {i t : Nat} {res : RunRes P E}
    (hi : s.pageIn[i]? = some (t, res)) (ht : t = s.page.token) :
    step env s (.donePage i) =
      { s with
        page := ⟨s.page.lastKey, s.page.token, s.page.gen + 1, applyRes res⟩
        pageIn := s.pageIn.eraseIdx i } := by
  obtain ⟨pr, rb, rd, rp, lb, ld, lp⟩ := s
  have h1 := h.kb
  have h2 := h.kd
  have h3 := h.kp
  simp only at h1 h2 h3 hi ht
  rw [step]
  simp only [completeRun, hi, Runner.complete, if_pos ht]
  exact renderPass_quiescent env h1 h2 h3

end StepChar

section InvPreserved

variable {BK B D P E : Type} [DecidableEq BK]
variable (env : Env BK B D P E) {s : PState BK B D P E}

/-- Retargeting `TokOK` at a freshly minted token. -/
theorem TokOK.succ {T : Type} {tok : Nat} {infl : List (Nat × RunRes T E)}
    (h : TokOK tok infl) : TokOK (tok + 1) infl :=
  ⟨fun x hx => Nat.le_succ_of_le (h.1 x hx), h.2⟩

/-- The document producer defers exactly when the bytes stage is not `Success`. -/
theorem documentProducer_deferred_iff {br : StageResult B E} :
    documentProducer br = .deferred ↔ br.isSuccess = false := by
  cases br <;> simp [documentProducer, StageResult.isSuccess]

/-- The page producer defers exactly when the document stage is not `Success`. -/
theorem pageProducer_deferred_iff {dr : StageResult D E} {pg : Option Nat} :
    pageProducer dr pg = .deferred ↔ dr.isSuccess = false := by
  cases dr <;> simp [pageProducer, StageResult.isSuccess]

/-- If the page producer proceeds, the document stage is `Success`. -/
theorem pageProducer_proceed {dr : StageResult D E} {pg : Option Nat} {a : D × Nat}
    (h : pageProducer dr pg = .proceed a) : dr.isSuccess = true := by
  cases dr <;> simp [pageProducer, StageResult.isSuccess] at h ⊢

/-- A settled run never publishes `Idle`. -/
theorem applyRes_ne_idle {T : Type} (res : RunRes T E) : applyRes res ≠ .idle := by
  cases res <;> simp [applyRes]

/-- The state right after mounting: bytes fetching (`Pending`, one in-flight
run), document and page blocked (`Idle`). -/
theorem mount_eq (p0 : Props BK) :
    mount env p0 =
      { props := p0,
        bytes := ⟨some p0.bkey, 1, 1, .pending⟩,
        doc := ⟨some 1, 1, 1, .idle⟩,
        page := ⟨some (1, p0.page), 1, 1, .idle⟩,
        bytesIn := [(1, env.fetchOutcome 1 p0.bkey)],
        docIn := [], pageIn := [] } := by
  simp [mount, renderPass, startStage, Runner.mk0, documentProducer, pageProducer]

/-- The invariant holds right after mounting. -/
theorem inv_mount (p0 : Props BK) : Inv (mount env p0) := by
  rw [mount_eq]
  refine ⟨rfl, rfl, rfl, by simp [StageResult.isSuccess], by simp [StageResult.isSuccess],
    ?_, ?_, ?_, ?_, ?_, ?_⟩
  · exact ⟨by simp, by simp⟩
  · exact ⟨by simp, by simp⟩
  · exact ⟨by simp, by simp⟩
  · exact CurPend.of_pending
  · intro x hx
    simp at hx
  · intro x hx
    simp at hx

/-- The invariant is preserved by every pipeline step. -/
theorem inv_step (h : Inv s) (ev : Ev BK) : Inv (step env s ev) := by
  cases ev with
  | setProps p =>
    by_cases hk : p.bkey = s.props.bkey
    · by_cases hp : p.page = s.props.page
      · have hps : p = s.props := by
          obtain ⟨a, b⟩ := p
          simp only at hk hp
          rw [hk, hp]
        rw [hps, step_setProps_same env h]
        exact h
      · rw [step_setProps_sameKey env h hk]
        have hcond : ¬ (s.page.lastKey = some (s.doc.gen, p.page)) := by
          rw [h.kp]
          simp only [Option.some.injEq, Prod.mk.injEq, true_and]
          exact fun hh => hp hh.symm
        cases hq : pageProducer s.doc.result p.page with
        | deferred =>
          simp only [startStage, if_neg hcond, hq]
          exact ⟨by rw [hk]; exact h.kb, h.kd, rfl, h.docIdle,
            by simp [pageProducer_deferred_iff.mp hq],
            h.tb, h.td, h.tp.succ, h.cpb, h.cpd, h.tp.mint _⟩
        | proceed a =>
          simp only [startStage, if_neg hcond, hq]
          exact ⟨by rw [hk]; exact h.kb, h.kd, rfl, h.docIdle,
            by simp [pageProducer_proceed hq],
            h.tb, h.td, h.tp.cons_fresh _, h.cpb, h.cpd, CurPend.of_pending⟩
    · rw [step_setProps_newKey env h hk]
      exact ⟨rfl, rfl, rfl, by simp [StageResult.isSuccess], by simp [StageResult.isSuccess],
        h.tb.cons_fresh _, h.td.succ, h.tp.succ,
        CurPend.of_pending, h.td.mint _, h.tp.mint _⟩
  | doneBytes i =>
    cases hi : s.bytesIn[i]? with
    | none =>
      rw [step_doneBytes_none env h hi]
      exact h
    | some x =>
      obtain ⟨t, res⟩ := x
      by_cases ht : t = s.bytes.token
      · subst ht
        cases res with
        | value v =>
          rw [step_doneBytes_value env h hi rfl]
          exact ⟨h.kb, rfl, rfl, by simp [StageResult.isSuccess], by simp [StageResult.isSuccess],
            h.tb.drop i, h.td.cons_fresh _, h.tp.succ,
            CurPend.after_apply h.tb hi _, CurPend.of_pending, h.tp.mint _⟩
        | error e =>
          rw [step_doneBytes_error env h hi rfl]
          exact ⟨h.kb, rfl, rfl, by simp [StageResult.isSuccess], by simp [StageResult.isSuccess],
            h.tb.drop i, h.td.succ, h.tp.succ,
            CurPend.after_apply h.tb hi _, h.td.mint _, h.tp.mint _⟩
      · rw [step_doneBytes_stale env h hi ht]
        exact ⟨h.kb, h.kd, h.kp, h.docIdle, h.pageIdle,
          h.tb.drop i, h.td, h.tp, h.cpb.unaffected i, h.cpd, h.cpp⟩
  | doneDoc i =>
    cases hi : s.docIn[i]? with
    | none =>
      rw [step_doneDoc_none env h hi]
      exact h
    | some x =>
      obtain ⟨t, res⟩ := x
      by_cases ht : t = s.doc.token
      · subst ht
        have hpend : s.doc.result = .pending := h.cpd _ (List.getElem?_mem hi) rfl
        have hbs : s.bytes.result.isSuccess = true := by
          rcases Bool.eq_false_or_eq_true s.bytes.result.isSuccess with hb | hb
          · exact hb
          · rw [h.docIdle.mpr hb] at hpend
            exact absurd hpend (by simp)
        cases res with
        | value v =>
          rw [step_doneDoc_value env h hi rfl]
          exact ⟨h.kb, h.kd, rfl, by simp [hbs],
            by simp [StageResult.isSuccess],
            h.tb, h.td.drop i, h.tp.cons_fresh _,
            h.cpb, CurPend.after_apply h.td hi _, CurPend.of_pending⟩
        | error e =>
          rw [step_doneDoc_error env h hi rfl]
          exact ⟨h.kb, h.kd, rfl, by simp [hbs],
            by simp [StageResult.isSuccess],
            h.tb, h.td.drop i, h.tp.succ,
            h.cpb, CurPend.after_apply h.td hi _, h.tp.mint _⟩
      · rw [step_doneDoc_stale env h hi ht]
        exact ⟨h.kb, h.kd, h.kp, h.docIdle, h.pageIdle,
          h.tb, h.td.drop i, h.tp, h.cpb, h.cpd.unaffected i, h.cpp⟩
  | donePage i =>
    cases hi : s.pageIn[i]? with
    | none =>
      rw [step_donePage_none env h hi]
      exact h
    | some x =>
      obtain ⟨t, res⟩ := x
      by_cases ht : t = s.page.token
      · subst ht
        have hpend : s.page.result = .pending := h.cpp _ (List.getElem?_mem hi) rfl
        have hds : s.doc.result.isSuccess = true := by
          rcases Bool.eq_false_or_eq_true s.doc.result.isSuccess with hb | hb
          · exact hb
          · rw [h.pageIdle.mpr hb] at hpend
            exact absurd hpend (by simp)
        rw [step_donePage_current env h hi rfl]
        exact ⟨h.kb, h.kd, h.kp, h.docIdle,
          by simp [hds, applyRes_ne_idle res],
          h.tb, h.td, h.tp.drop i, h.cpb, h.cpd, CurPend.after_apply h.tp hi _⟩
      · rw [step_donePage_stale env h hi ht]
        exact ⟨h.kb, h.kd, h.kp, h.docIdle, h.pageIdle,
          h.tb, h.td, h.tp.drop i, h.cpb, h.cpd, h.cpp.unaffected i⟩

/-- Every reachable state satisfies the invariant. -/
theorem reachable_inv {s : PState BK B D P E} (h : Reachable env s) : Inv s := by
  obtain ⟨p0, evs, rfl⟩ := h
  rw [runP]
  have main : ∀ (l : List (Ev BK)) (st : PState BK B D P E), Inv st →
      Inv (l.foldl (step env) st) := by
    intro l
    induction l with
    | nil => exact fun st hst => hst
    | cons e tl ih =>
      intro st hst
      exact ih _ (inv_step env hst e)
  exact main evs _ (inv_mount env p0)

end InvPreserved

section Helpers

variable {BK B D P E : Type} [DecidableEq BK]
variable (env : Env BK B D P E) {s : PState BK B D P E}

/-- The published part of a pipeline state: props and the three runners
(everything an observer of the component can see). -/
def pub (s : PState BK B D P E) :
    Props BK × Runner BK B E × Runner Nat D E × Runner (Nat × Option Nat) P E :=
  (s.props, s.bytes, s.doc, s.page)

/-- Settling any bytes run while the bytes stage is not `Pending` cannot
change anything published: such a run is necessarily stale. -/
theorem step_doneBytes_frozen (h : Inv s) (hnp : s.bytes.result ≠ .pending) (i : Nat) :
    pub (step env s (.doneBytes i)) = pub s := by
  cases hi : s.bytesIn[i]? with
  | none => rw [step_doneBytes_none env h hi]
  | some x =>
    obtain ⟨t, res⟩ := x
    have ht : t ≠ s.bytes.token := fun hh => hnp (h.cpb _ (List.getElem?_mem hi) hh)
    rw [step_doneBytes_stale env h hi ht]
    rfl

/-- Settling any document run while the document stage is not `Pending`
cannot change anything published. -/
theorem step_doneDoc_frozen (h : Inv s) (hnp : s.doc.result ≠ .pending) (i : Nat) :
    pub (step env s (.doneDoc i)) = pub s := by
  cases hi : s.docIn[i]? with
  | none => rw [step_doneDoc_none env h hi]
  | some x =>
    obtain ⟨t, res⟩ := x
    have ht : t ≠ s.doc.token := fun hh => hnp (h.cpd _ (List.getElem?_mem hi) hh)
    rw [step_doneDoc_stale env h hi ht]
    rfl

/-- Settling any page run while the page stage is not `Pending` cannot
change anything published. -/
theorem step_donePage_frozen (h : Inv s) (hnp : s.page.result ≠ .pending) (i : Nat) :
    pub (step env s (.donePage i)) = pub s := by
  cases hi : s.pageIn[i]? with
  | none => rw [step_donePage_none env h hi]
  | some x =>
    obtain ⟨t, res⟩ := x
    have ht : t ≠ s.page.token := fun hh => hnp (h.cpp _ (List.getElem?_mem hi) hh)
    rw [step_donePage_stale env h hi ht]
    rfl

/-- In one step the document runner is either untouched, or restarted (so it
publishes `Idle` or `Pending`), or its current pending run's settled result is
applied (publishing a fresh object). -/
theorem step_doc_trichotomy (h : Inv s) (ev : Ev BK) :
    (step env s ev).doc = s.doc ∨
    ((step env s ev).doc.result = .idle ∨ (step env s ev).doc.result = .pending) ∨
    (s.doc.result = .pending ∧ (step env s ev).doc.gen = s.doc.gen + 1 ∧
      ∃ res, (step env s ev).doc.result = applyRes res) := by
  cases ev with
  | setProps p =>
    by_cases hk : p.bkey = s.props.bkey
    · rw [step_setProps_sameKey env h hk]
      exact Or.inl rfl
    · rw [step_setProps_newKey env h hk]
      exact Or.inr (Or.inl (Or.inl rfl))
  | doneBytes i =>
    cases hi : s.bytesIn[i]? with
    | none => exact Or.inl (congrArg PState.doc (step_doneBytes_none env h hi))
    | some x =>
      obtain ⟨t, res⟩ := x
      by_cases ht : t = s.bytes.token
      · subst ht
        cases res with
        | value v =>
          rw [step_doneBytes_value env h hi rfl]
          exact Or.inr (Or.inl (Or.inr rfl))
        | error e =>
          rw [step_doneBytes_error env h hi rfl]
          exact Or.inr (Or.inl (Or.inl rfl))
      · rw [step_doneBytes_stale env h hi ht]
        exact Or.inl rfl
  | doneDoc i =>
    cases hi : s.docIn[i]? with
    | none => exact Or.inl (congrArg PState.doc (step_doneDoc_none env h hi))
    | some x =>
      obtain ⟨t, res⟩ := x
      by_cases ht : t = s.doc.token
      · subst ht
        have hpend : s.doc.result = .pending := h.cpd _ (List.getElem?_mem hi) rfl
        cases res with
        | value v =>
          rw [step_doneDoc_value env h hi rfl]
          exact Or.inr (Or.inr ⟨hpend, rfl, .value v, rfl⟩)
        | error e =>
          rw [step_doneDoc_error env h hi rfl]
          exact Or.inr (Or.inr ⟨hpend, rfl, .error e, rfl⟩)
      · rw [step_doneDoc_stale env h hi ht]
        exact Or.inl rfl
  | donePage i =>
    cases hi : s.pageIn[i]? with
    | none => exact Or.inl (congrArg PState.doc (step_donePage_none env h hi))
    | some x =>
      obtain ⟨t, res⟩ := x
      by_cases ht : t = s.page.token
      · subst ht
        rw [step_donePage_current env h hi rfl]
        exact Or.inl rfl
      · rw [step_donePage_stale env h hi ht]
        exact Or.inl rfl

/-- In one step the page runner is either untouched, or restarted (so it
publishes `Idle` or `Pending`), or its current pending run's settled result is
applied (publishing a fresh object). -/
theorem step_page_trichotomy (h : Inv s) (ev : Ev BK) :
    (step env s ev).page = s.page ∨
    ((step env s ev).page.result = .idle ∨ (step env s ev).page.result = .pending) ∨
    (s.page.result = .pending ∧ (step env s ev).page.gen = s.page.gen + 1 ∧
      ∃ res, (step env s ev).page.result = applyRes res) := by
  cases ev with
  | setProps p =>
    by_cases hk : p.bkey = s.props.bkey
    · by_cases hp : p.page = s.props.page
      · have hps : p = s.props := by
          obtain ⟨a, b⟩ := p
          simp only at hk hp
          rw [hk, hp]
        rw [hps, step_setProps_same env h]
        exact Or.inl rfl
      · rw [step_setProps_sameKey env h hk]
        have hcond : ¬ (s.page.lastKey = some (s.doc.gen, p.page)) := by
          rw [h.kp]
          simp only [Option.some.injEq, Prod.mk.injEq, true_and]
          exact fun hh => hp hh.symm
        cases hq : pageProducer s.doc.result p.page with
        | deferred =>
          simp only [startStage, if_neg hcond, hq]
          simp
        | proceed a =>
          simp only [startStage, if_neg hcond, hq]
          simp
    · rw [step_setProps_newKey env h hk]
      exact Or.inr (Or.inl (Or.inl rfl))
  | doneBytes i =>
    cases hi : s.bytesIn[i]? with
    | none => exact Or.inl (congrArg PState.page (step_doneBytes_none env h hi))
    | some x =>
      obtain ⟨t, res⟩ := x
      by_cases ht : t = s.bytes.token
      · subst ht
        cases res with
        | value v =>
          rw [step_doneBytes_value env h hi rfl]
          exact Or.inr (Or.inl (Or.inl rfl))
        | error e =>
          rw [step_doneBytes_error env h hi rfl]
          exact Or.inr (Or.inl (Or.inl rfl))
      · rw [step_doneBytes_stale env h hi ht]
        exact Or.inl rfl
  | doneDoc i =>
    cases hi : s.docIn[i]? with
    | none => exact Or.inl (congrArg PState.page (step_doneDoc_none env h hi))
    | some x =>
      obtain ⟨t, res⟩ := x
      by_cases ht : t = s.doc.token
      · subst ht
        cases res with
        | value v =>
          rw [step_doneDoc_value env h hi rfl]
          exact Or.inr (Or.inl (Or.inr rfl))
        | error e =>
          rw [step_doneDoc_error env h hi rfl]
          exact Or.inr (Or.inl (Or.inl rfl))
      · rw [step_doneDoc_stale env h hi ht]
        exact Or.inl rfl
  | donePage i =>
    cases hi : s.pageIn[i]? with
    | none => exact Or.inl (congrArg PState.page (step_donePage_none env h hi))
    | some x =>
      obtain ⟨t, res⟩ := x
      by_cases ht : t = s.page.token
      · subst ht
        have hpend : s.page.result = .pending := h.cpp _ (List.getElem?_mem hi) rfl
        rw [step_donePage_current env h hi rfl]
        exact Or.inr (Or.inr ⟨hpend, rfl, res, rfl⟩)
      · rw [step_donePage_stale env h hi ht]
        exact Or.inl rfl

end Helpers

section Effects

variable {BK B D P E : Type}

/-- The dependency tuple of the `onDocumentSuccess` / `onPageSuccess` effects
(source lines 93-97 and 109-113): the stage's published result object — whose
identity is the runner's `gen` — and the callback prop, whose identity is
modelled by an optional numeric id (`none` = prop not supplied). `res` is the
result's payload, carried so the effect body can test its status and extract
its data. -/
structure CBDeps (T E : Type) where
  gen : Nat
  res : StageResult T E
  cb : Option Nat
deriving DecidableEq

/-- One commit of a `useEffect(() => { if (r.status === 'success' && cb) cb(r.data) }, [r, cb])`
effect (source lines 93-97 / 109-113): React re-runs the body iff some dep
changed since the previous commit (`documentResult` compared by identity =
`gen`, the callback prop by identity = `cb`); the body invokes the callback
iff the stage is `Success` and the callback is supplied. Returns the
invocation's argument and callback id, or `none` if the callback is not
invoked at this commit. -/
def runStageSuccessEffect (prev cur : CBDeps T E) : Option (T × Nat) :=
  if prev.gen = cur.gen ∧ prev.cb = cur.cb then none
  else
    match cur.res, cur.cb with
    | .success v, some c => some (v, c)
    | _, _ => none

/-- One commit of the `onSuccess` effect (source lines 130-136):
`success = pageResult.status === 'success'` is a boolean, and the deps are
`[onSuccess, success]`; the body invokes the callback iff `success` and the
callback is supplied. -/
def runOnSuccessEffect (prev cur : Bool × Option Nat) : Option Nat :=
  if prev = cur then none
  else
    match cur with
    | (true, some c) => some c
    | _ => none

/-- The identity of the `error` value at a state: `error` (source lines
139-141) is the failing stage's `data` object, so its identity is determined
by which stage failed first (in bytes→document→page order), that stage's
published object (`gen`), and the error value itself. `none` models the JS
value `false` (no failure). -/
def errKeyOf (s : PState BK B D P E) : Option (Nat × Nat × E) :=
  match s.bytes.result with
  | .failure e => some (0, s.bytes.gen, e)
  | _ =>
    match s.doc.result with
    | .failure e => some (1, s.doc.gen, e)
    | _ =>
      match s.page.result with
      | .failure e => some (2, s.page.gen, e)
      | _ => none

/-- One commit of the `onFailure` effect (source lines 142-147):
`useEffect(() => { if (error && onFailure) onFailure(error) }, [onFailure, error])`.
The deps are the `error` value (identity per `errKeyOf`) and the callback
prop; the body invokes the callback with the error iff `error` is truthy and
the callback is supplied. -/
def runOnFailureEffect [DecidableEq E] (prev cur : Option (Nat × Nat × E) × Option Nat) :
    Option (E × Nat) :=
  if prev = cur then none
  else
    match cur with
    | (some x, some c) => some (x.2.2, c)
    | _ => none

/-- The identity key `errKeyOf` carries exactly the surfaced error of `errorOf`. -/
theorem errKeyOf_val (s : PState BK B D P E) :
    (errKeyOf s).map (fun x => x.2.2) = errorOf s := by
  cases hb : s.bytes.result <;> cases hd : s.doc.result <;> cases hp : s.page.result <;>
    simp [errKeyOf, errorOf, pipelineError, hb, hd, hp]

/-- The identity key `errKeyOf` is `none` exactly when no error is surfaced. -/
theorem errKeyOf_none_iff (s : PState BK B D P E) :
    errKeyOf s = none ↔ errorOf s = none := by
  cases hb : s.bytes.result <;> cases hd : s.doc.result <;> cases hp : s.page.result <;>
    simp [errKeyOf, errorOf, pipelineError, hb, hd, hp]

end Effects

section RenderSink

variable {P E : Type}

/-- The drawing surface (`<canvas>`): mutable pixel dimensions and whether a
2-D drawing context is available (`canvas.getContext('2d')`). -/
structure CanvasModel where
  height : ℚ
  width : ℚ
  hasContext : Bool
deriving DecidableEq

/-- The body of the render effect, source `Byblos.tsx` lines 151-172:
if the canvas is mounted and the page stage is `Success`, compute
`viewport = pageData.getViewport({ scale: scale ?? 1 })` (modelled by the
abstract `getViewport : page → scale → (height, width)`), get the 2-D context
(bail out if unavailable), set `canvas.height`/`canvas.width` to the
viewport's dimensions, and issue one `pageData.render({canvasContext, viewport})`
call. Returns the updated canvas and the draw call (page and viewport) if one
was issued. An unmounted canvas is a no-op. -/
def renderSinkBody (getViewport : P → ℚ → ℚ × ℚ) (canvas : Option CanvasModel)
    (pr : StageResult P E) (scale : Option ℚ) :
    Option CanvasModel × Option (P × (ℚ × ℚ)) :=
  match canvas with
  | none => (none, none)
  | some cv =>
    match pr with
    | .success pageData =>
      let vp := getViewport pageData (scale.getD 1)
      if cv.hasContext then
        (some { cv with height := vp.1, width := vp.2 }, some (pageData, vp))
      else (some cv, none)
    | _ => (some cv, none)

/-- One commit of the render effect (source lines 151-172): its dependency
tuple is `[pageResult, scale]` (`pageResult` compared by identity = the page
runner's `gen`); the body runs iff some dep changed since the previous commit. -/
def runRenderEffect (getViewport : P → ℚ → ℚ × ℚ) (prev cur : Nat × Option ℚ)
    (canvas : Option CanvasModel) (pr : StageResult P E) (scale : Option ℚ) :
    Option CanvasModel × Option (P × (ℚ × ℚ)) :=
  if prev = cur then (canvas, none)
  else renderSinkBody getViewport canvas pr scale

end RenderSink

section ClaimsPure

/-- C4: For every combination of the three stages' StageResults, the
pipeline's surfaced error equals the error of the first stage in
bytes→document→page order whose StageResult is Failure, and is absent when no
stage is Failure. (`List.findSome?` over the per-stage failure data in stage
order is exactly that scan, and yields `none` when no stage fails.) -/
theorem c4_error_is_first_failure {B D P E : Type}
    (b : StageResult B E) (d : StageResult D E) (p : StageResult P E) :
    pipelineError b d p = [b.errorData, d.errorData, p.errorData].findSome? id := by
  cases b <;> cases d <;> cases p <;> rfl

/-- C7: The derived `loading` output is true iff at least one of the three
stages (bytes, document, page) is `Pending`. -/
theorem c7_loading_iff_some_pending {B D P E : Type}
    (b : StageResult B E) (d : StageResult D E) (p : StageResult P E) :
    loadingOf b d p = true ↔ (b = .pending ∨ d = .pending ∨ p = .pending) := by
  cases b <;> cases d <;> cases p <;>
    simp [loadingOf, StageResult.isPending]

/-- C9: When the document stage is `Success`, the page producer requests the
page at the 1-based index `page ?? 1` from the document handle — index 1 when
the `page` prop is omitted; when the document stage is not `Success` (idle,
pending or failure), it returns the DeferredSignal and requests nothing. -/
theorem c9_page_producer_behaviour {D E : Type} (d : D) (e : E) (pg : Option Nat) (n : Nat) :
    pageProducer (.success d : StageResult D E) pg = .proceed (d, pg.getD 1) ∧
    pageProducer (.success d : StageResult D E) none = .proceed (d, 1) ∧
    pageProducer (.success d : StageResult D E) (some n) = .proceed (d, n) ∧
    pageProducer (.idle : StageResult D E) pg = .deferred ∧
    pageProducer (.pending : StageResult D E) pg = .deferred ∧
    pageProducer (.failure e : StageResult D E) pg = .deferred := by
  simp [pageProducer]

/-- C10: In every render, if at least one stage is `Pending` the component
renders the loading fallback (even when another stage is `Failure`), and the
error fallback is rendered exactly when an error is surfaced and no stage is
`Pending`: the loading check takes precedence over the error check. -/
theorem c10_loading_precedes_error {B D P E : Type}
    (b : StageResult B E) (d : StageResult D E) (p : StageResult P E) :
    (renderedOf b d p = .loadingFallback ↔ loadingOf b d p = true) ∧
    (renderedOf b d p = .errorFallback ↔
      (loadingOf b d p = false ∧ (pipelineError b d p).isSome = true)) := by
  rcases hl : loadingOf b d p <;> rcases he : (pipelineError b d p).isSome <;>
    simp [renderedOf, hl, he]

end ClaimsPure

section ClaimsTemporal

variable {BK B D P E : Type} [DecidableEq BK]

/-- A `Failure` result is a `failure` constructor. -/
theorem isFailure_iff {T : Type} {E : Type} {r : StageResult T E} :
    r.isFailure = true ↔ ∃ e, r = .failure e := by
  cases r <;> simp [StageResult.isFailure]

/-- C1: For every stage and every reachable state (hence every sequence of
dependency-key changes and completions), a run's settled result is applied to
the stage's published StageResult iff the run's RunToken still equals the
stage's current token when the run completes; a superseded run's completion
changes nothing published — even when an older run completes after a newer
one was issued. -/
theorem c1_result_applied_iff_token_current (env : Env BK B D P E) {s : PState BK B D P E}
    (hs : Reachable env s) :
    (∀ i t res, s.bytesIn[i]? = some (t, res) →
      (t = s.bytes.token → (step env s (.doneBytes i)).bytes.result = applyRes res) ∧
      (t ≠ s.bytes.token → pub (step env s (.doneBytes i)) = pub s)) ∧
    (∀ i t res, s.docIn[i]? = some (t, res) →
      (t = s.doc.token → (step env s (.doneDoc i)).doc.result = applyRes res) ∧
      (t ≠ s.doc.token → pub (step env s (.doneDoc i)) = pub s)) ∧
    (∀ i t res, s.pageIn[i]? = some (t, res) →
      (t = s.page.token → (step env s (.donePage i)).page.result = applyRes res) ∧
      (t ≠ s.page.token → pub (step env s (.donePage i)) = pub s)) := by
  have h := reachable_inv env hs
  refine ⟨fun i t res hi => ⟨fun ht => ?_, fun ht => ?_⟩,
    fun i t res hi => ⟨fun ht => ?_, fun ht => ?_⟩,
    fun i t res hi => ⟨fun ht => ?_, fun ht => ?_⟩⟩
  · cases res with
    | value v =>
      rw [step_doneBytes_value env h hi ht]
      rfl
    | error e =>
      rw [step_doneBytes_error env h hi ht]
      rfl
  · rw [step_doneBytes_stale env h hi ht]
    rfl
  · cases res with
    | value v =>
      rw [step_doneDoc_value env h hi ht]
      rfl
    | error e =>
      rw [step_doneDoc_error env h hi ht]
      rfl
  · rw [step_doneDoc_stale env h hi ht]
    rfl
  · rw [step_donePage_current env h hi ht]
  · rw [step_donePage_stale env h hi ht]
    rfl

/-- C2 (amended): Whenever the bytes stage is `Pending` or `Failure`, the
document and page stages are blocked (`Idle` — never `Success` or `Failure`);
moreover a bytes `Failure` persists under every event that does not change
the bytes stage's dependency key, so the downstream stages stay blocked until
that key changes. (A `Pending` bytes stage may instead complete successfully,
unblocking them without any key change — see the counterexample.) -/
theorem c2_downstream_blocked_while_bytes_unready (env : Env BK B D P E)
    {s : PState BK B D P E} (hs : Reachable env s) :
    (s.bytes.result = .pending ∨ s.bytes.result.isFailure = true →
      s.doc.result = .idle ∧ s.page.result = .idle) ∧
    (∀ e ev, s.bytes.result = .failure e →
      (∀ p, ev = Ev.setProps p → p.bkey = s.props.bkey) →
      (step env s ev).bytes.result = .failure e) := by
  have h := reachable_inv env hs
  constructor
  · intro hb
    have hbs : s.bytes.result.isSuccess = false := by
      rcases hb with hb | hb
      · rw [hb]; rfl
      · obtain ⟨e, he⟩ := isFailure_iff.mp hb
        rw [he]; rfl
    have hd := h.docIdle.mpr hbs
    exact ⟨hd, h.pageIdle.mpr (by rw [hd]; rfl)⟩
  · intro e ev hf hkev
    cases ev with
    | setProps p =>
      rw [step_setProps_sameKey env h (hkev p rfl)]
      exact hf
    | doneBytes i =>
      have hfr := step_doneBytes_frozen env h (by rw [hf]; simp) i
      have hb : (step env s (.doneBytes i)).bytes = s.bytes :=
        congrArg (fun x => x.2.1) hfr
      rw [hb, hf]
    | doneDoc i =>
      have hd : s.doc.result = .idle := h.docIdle.mpr (by rw [hf]; rfl)
      have hfr := step_doneDoc_frozen env h (by rw [hd]; simp) i
      have hb : (step env s (.doneDoc i)).bytes = s.bytes :=
        congrArg (fun x => x.2.1) hfr
      rw [hb, hf]
    | donePage i =>
      have hd : s.doc.result = .idle := h.docIdle.mpr (by rw [hf]; rfl)
      have hp : s.page.result = .idle := h.pageIdle.mpr (by rw [hd]; rfl)
      have hfr := step_donePage_frozen env h (by rw [hp]; simp) i
      have hb : (step env s (.donePage i)).bytes = s.bytes :=
        congrArg (fun x => x.2.1) hfr
      rw [hb, hf]

/-- C3: If only the page index changes (same bytes key, different `page`
prop) while the document stage is `Success`, then only the page stage
restarts: the bytes and document runners and their in-flight runs are
untouched (no re-fetch, no re-decode), while the page stage goes `Pending`
under a fresh token with a fresh request for `page ?? 1` of the same handle. -/
theorem c3_only_page_restarts (env : Env BK B D P E) {s : PState BK B D P E}
    (hs : Reachable env s) {d : D} (hd : s.doc.result = .success d) {p : Props BK}
    (hk : p.bkey = s.props.bkey) (hp : p.page ≠ s.props.page) :
    (step env s (.setProps p)).bytes = s.bytes ∧
    (step env s (.setProps p)).bytesIn = s.bytesIn ∧
    (step env s (.setProps p)).doc = s.doc ∧
    (step env s (.setProps p)).docIn = s.docIn ∧
    (step env s (.setProps p)).page.result = .pending ∧
    (step env s (.setProps p)).page.token = s.page.token + 1 ∧
    (step env s (.setProps p)).pageIn =
      (s.page.token + 1, env.pageOutcome (s.page.token + 1) d (p.page.getD 1)) :: s.pageIn := by
  have h := reachable_inv env hs
  rw [step_setProps_sameKey env h hk]
  have hcond : ¬ (s.page.lastKey = some (s.doc.gen, p.page)) := by
    rw [h.kp]
    simp only [Option.some.injEq, Prod.mk.injEq, true_and]
    exact fun hh => hp hh.symm
  simp only [startStage, if_neg hcond, hd, pageProducer]
  simp

end ClaimsTemporal

section Witnesses

/-- A concrete all-successful environment over `Nat` data: a fetch of key `k`
under token `t` yields buffer `10·k + t`, decoding buffer `b` yields document
`100 + b`, and requesting page `i` of document `d` yields page `d + i`. -/
def envW : Env Nat Nat Nat Nat Nat :=
  ⟨fun t k => .value (10 * k + t), fun _ b => .value (100 + b), fun _ d i => .value (d + i)⟩

/-- A concrete environment whose byte transport always fails with error 9. -/
def envF : Env Nat Nat Nat Nat Nat :=
  ⟨fun _ _ => .error 9, fun _ b => .value (100 + b), fun _ d i => .value (d + i)⟩

/-- Initial props: bytes key 0, `page` prop omitted. -/
def propsW : Props Nat := ⟨0, none⟩

/-- Witness for C1 at a concrete reachable state: after changing the source
(bytes key 0 → 1) while the first fetch is still in flight, the pipeline
holds two in-flight bytes runs; settling the superseded run (token 1, buffer
1) changes nothing published even though it completes after the newer run was
issued, and settling the current run (token 2, buffer 12) publishes
`Success 12`. -/
theorem c1_witness :
    (runP envW propsW [.setProps ⟨1, none⟩]).bytesIn[1]? = some (1, .value 1) ∧
    (1 : Nat) ≠ (runP envW propsW [.setProps ⟨1, none⟩]).bytes.token ∧
    pub (step envW (runP envW propsW [.setProps ⟨1, none⟩]) (.doneBytes 1)) =
      pub (runP envW propsW [.setProps ⟨1, none⟩]) ∧
    (runP envW propsW [.setProps ⟨1, none⟩]).bytesIn[0]? = some (2, .value 12) ∧
    (step envW (runP envW propsW [.setProps ⟨1, none⟩]) (.doneBytes 0)).bytes.result =
      applyRes (.value 12) := by
  refine ⟨by decide, by decide, ?_, by decide, ?_⟩
  · exact ((c1_result_applied_iff_token_current envW
      ⟨propsW, [.setProps ⟨1, none⟩], rfl⟩).1 1 1 (.value 1) (by decide)).2 (by decide)
  · exact ((c1_result_applied_iff_token_current envW
      ⟨propsW, [.setProps ⟨1, none⟩], rfl⟩).1 0 2 (.value 12) (by decide)).1 (by decide)

/-- Counterexample to C2 as stated: right after mounting, the bytes stage is
`Pending` and the document and page stages are blocked; yet without any
change to the bytes stage's dependency key (no props event at all — the props
and the observed bytes key stay `propsW`/`some 0`), the bytes fetch completes
successfully and then the document stage reaches `Success 101`. So "blocked
until the pending upstream stage's dependency key changes" is false: a
pending upstream may clear by completing, with no key change ever. -/
theorem c2_counterexample :
    (runP envW propsW []).bytes.result = .pending ∧
    (runP envW propsW []).doc.result = .idle ∧
    (runP envW propsW []).page.result = .idle ∧
    (runP envW propsW [.doneBytes 0, .doneDoc 0]).props = propsW ∧
    (runP envW propsW [.doneBytes 0, .doneDoc 0]).bytes.lastKey = some propsW.bkey ∧
    (runP envW propsW [.doneBytes 0, .doneDoc 0]).doc.result = .success 101 := by
  decide

/-- Witness for the amended C2 at a concrete reachable state: after the fetch
fails, bytes is `Failure 9`, the document and page stages are `Idle`, and a
further completion event (which changes no dependency key) leaves the bytes
failure in place. -/
theorem c2_witness :
    (runP envF propsW [.doneBytes 0]).bytes.result.isFailure = true ∧
    (runP envF propsW [.doneBytes 0]).doc.result = .idle ∧
    (runP envF propsW [.doneBytes 0]).page.result = .idle ∧
    (step envF (runP envF propsW [.doneBytes 0]) (.doneBytes 0)).bytes.result = .failure 9 := by
  have hr : Reachable envF (runP envF propsW [.doneBytes 0]) := ⟨propsW, [.doneBytes 0], rfl⟩
  have h2 := c2_downstream_blocked_while_bytes_unready envF hr
  refine ⟨by decide, (h2.1 (Or.inr (by decide))).1, (h2.1 (Or.inr (by decide))).2, ?_⟩
  exact h2.2 9 (.doneBytes 0) (by decide) (fun p hp => nomatch hp)

/-- Witness for C3 at a concrete reachable state: with bytes `Success 1` and
document `Success 101`, changing only the `page` prop (`none` → `some 2`)
leaves the bytes and document runners and in-flight lists untouched and
restarts only the page stage, which requests page 2 of document 101 under the
fresh token. -/
theorem c3_witness :
    (runP envW propsW [.doneBytes 0, .doneDoc 0]).doc.result = .success 101 ∧
    (step envW (runP envW propsW [.doneBytes 0, .doneDoc 0]) (.setProps ⟨0, some 2⟩)).bytes =
      (runP envW propsW [.doneBytes 0, .doneDoc 0]).bytes ∧
    (step envW (runP envW propsW [.doneBytes 0, .doneDoc 0]) (.setProps ⟨0, some 2⟩)).doc =
      (runP envW propsW [.doneBytes 0, .doneDoc 0]).doc ∧
    (step envW (runP envW propsW [.doneBytes 0, .doneDoc 0]) (.setProps ⟨0, some 2⟩)).page.result
      = .pending ∧
    (step envW (runP envW propsW [.doneBytes 0, .doneDoc 0]) (.setProps ⟨0, some 2⟩)).page.token
      = (runP envW propsW [.doneBytes 0, .doneDoc 0]).page.token + 1 := by
  have hr : Reachable envW (runP envW propsW [.doneBytes 0, .doneDoc 0]) :=
    ⟨propsW, [.doneBytes 0, .doneDoc 0], rfl⟩
  have h3 := c3_only_page_restarts envW hr (d := 101) (by decide)
    (p := ⟨0, some 2⟩) (by decide) (by decide)
  exact ⟨by decide, h3.1, h3.2.2.1, h3.2.2.2.2.1, h3.2.2.2.2.2.1⟩

end Witnesses

section ClaimsCallbacks

variable {BK B D P E : Type} [DecidableEq BK]

/-- A settled run never publishes `Pending`. -/
theorem applyRes_ne_pending {T : Type} {E : Type} (res : RunRes T E) :
    applyRes (E := E) res ≠ .pending := by
  cases res <;> simp [applyRes]

/-- C6 (amended): With the callback prop identity-stable across the two
commits (`some c` both times), `onDocumentSuccess`, `onPageSuccess` and
`onSuccess` each fire exactly once per transition of their stage into
`Success`: a step that leaves the stage's published StageResult unchanged
invokes no callback, and a step that moves the stage into `Success` invokes
it exactly once, with that success's data. (Without callback-prop stability
this fails — see the counterexample.) -/
theorem c6_success_callbacks_fire_once_per_transition (env : Env BK B D P E)
    {s : PState BK B D P E} (hs : Reachable env s) (ev : Ev BK) (c : Nat) :
    ((step env s ev).doc.result = s.doc.result →
      runStageSuccessEffect ⟨s.doc.gen, s.doc.result, some c⟩
        ⟨(step env s ev).doc.gen, (step env s ev).doc.result, some c⟩ = none) ∧
    (∀ v, s.doc.result.isSuccess = false → (step env s ev).doc.result = .success v →
      runStageSuccessEffect ⟨s.doc.gen, s.doc.result, some c⟩
        ⟨(step env s ev).doc.gen, (step env s ev).doc.result, some c⟩ = some (v, c)) ∧
    ((step env s ev).page.result = s.page.result →
      runStageSuccessEffect ⟨s.page.gen, s.page.result, some c⟩
        ⟨(step env s ev).page.gen, (step env s ev).page.result, some c⟩ = none) ∧
    (∀ v, s.page.result.isSuccess = false → (step env s ev).page.result = .success v →
      runStageSuccessEffect ⟨s.page.gen, s.page.result, some c⟩
        ⟨(step env s ev).page.gen, (step env s ev).page.result, some c⟩ = some (v, c)) ∧
    ((step env s ev).page.result.isSuccess = s.page.result.isSuccess →
      runOnSuccessEffect (s.page.result.isSuccess, some c)
        ((step env s ev).page.result.isSuccess, some c) = none) ∧
    (s.page.result.isSuccess = false → (step env s ev).page.result.isSuccess = true →
      runOnSuccessEffect (s.page.result.isSuccess, some c)
        ((step env s ev).page.result.isSuccess, some c) = some c) := by
  have h := reachable_inv env hs
  have tdoc := step_doc_trichotomy env h ev
  have tpage := step_page_trichotomy env h ev
  refine ⟨?_, ?_, ?_, ?_, ?_, ?_⟩
  · intro hres
    rcases tdoc with heq | hmid | ⟨hpend, hgen, res, hres'⟩
    · rw [heq]
      simp [runStageSuccessEffect]
    · rcases hmid with hm | hm <;> simp [runStageSuccessEffect, hm]
    · rw [hres, hpend] at hres'
      exact absurd hres'.symm (applyRes_ne_pending res)
  · intro v hns hsucc
    rcases tdoc with heq | hmid | ⟨hpend, hgen, res, hres'⟩
    · rw [heq] at hsucc
      rw [hsucc] at hns
      exact absurd hns (by simp [StageResult.isSuccess])
    · rcases hmid with hm | hm <;> rw [hsucc] at hm <;> exact absurd hm (by simp)
    · simp [runStageSuccessEffect, hgen, hsucc]
  · intro hres
    rcases tpage with heq | hmid | ⟨hpend, hgen, res, hres'⟩
    · rw [heq]
      simp [runStageSuccessEffect]
    · rcases hmid with hm | hm <;> simp [runStageSuccessEffect, hm]
    · rw [hres, hpend] at hres'
      exact absurd hres'.symm (applyRes_ne_pending res)
  · intro v hns hsucc
    rcases tpage with heq | hmid | ⟨hpend, hgen, res, hres'⟩
    · rw [heq] at hsucc
      rw [hsucc] at hns
      exact absurd hns (by simp [StageResult.isSuccess])
    · rcases hmid with hm | hm <;> rw [hsucc] at hm <;> exact absurd hm (by simp)
    · simp [runStageSuccessEffect, hgen, hsucc]
  · intro hb
    rw [hb]
    simp [runOnSuccessEffect]
  · intro h5 h6
    rw [h5, h6]
    simp [runOnSuccessEffect]

/-- Counterexample to C6 as stated: two consecutive commits in which the
document stage's StageResult is unchanged — the same published object (same
`gen`) carrying the same `Success 7` — but the `onDocumentSuccess` prop is a
different function identity (id 0, then id 1). The effect's dependency array
`[documentResult, onDocumentSuccess]` has changed, so the effect re-runs and
invokes the callback again: the callback does NOT fire only once per success
transition, refuting "while the stage's StageResult is unchanged across
renders, the callback is not invoked again". -/
theorem c6_counterexample :
    runStageSuccessEffect (⟨3, .success 7, some 0⟩ : CBDeps Nat Nat) ⟨3, .success 7, some 1⟩
      = some (7, 1) ∧
    (⟨3, .success 7, some 0⟩ : CBDeps Nat Nat).gen = (⟨3, .success 7, some 1⟩ : CBDeps Nat Nat).gen ∧
    (⟨3, .success 7, some 0⟩ : CBDeps Nat Nat).res = (⟨3, .success 7, some 1⟩ : CBDeps Nat Nat).res := by
  decide

/-- Witness for the amended C6 at a concrete reachable state: settling the
document decode moves the document stage `Pending` → `Success 101` and the
effect invokes the callback with the decoded document exactly then; an event
that leaves the document result unchanged (settling a nonexistent page run)
invokes nothing. -/
theorem c6_witness :
    (step envW (runP envW propsW [.doneBytes 0]) (.doneDoc 0)).doc.result = .success 101 ∧
    runStageSuccessEffect
      ⟨(runP envW propsW [.doneBytes 0]).doc.gen, (runP envW propsW [.doneBytes 0]).doc.result,
        some 5⟩
      ⟨(step envW (runP envW propsW [.doneBytes 0]) (.doneDoc 0)).doc.gen,
        (step envW (runP envW propsW [.doneBytes 0]) (.doneDoc 0)).doc.result, some 5⟩
      = some (101, 5) ∧
    runStageSuccessEffect
      ⟨(runP envW propsW [.doneBytes 0]).doc.gen, (runP envW propsW [.doneBytes 0]).doc.result,
        some 5⟩
      ⟨(step envW (runP envW propsW [.doneBytes 0]) (.donePage 0)).doc.gen,
        (step envW (runP envW propsW [.doneBytes 0]) (.donePage 0)).doc.result, some 5⟩
      = none := by
  have hr : Reachable envW (runP envW propsW [.doneBytes 0]) := ⟨propsW, [.doneBytes 0], rfl⟩
  refine ⟨by decide, ?_, ?_⟩
  · exact (c6_success_callbacks_fire_once_per_transition envW hr (.doneDoc 0) 5).2.1 101
      (by decide) (by decide)
  · exact (c6_success_callbacks_fire_once_per_transition envW hr (.donePage 0) 5).1 (by decide)

end ClaimsCallbacks

section ClaimRenderSink

variable {P E : Type}

/-- C8: One commit of the render effect. If the deps `(pageResult, scale)`
are unchanged, the effect does not re-run: no draw. If they changed and the
page stage is `Success` with the canvas mounted (and its 2-D context
available, as it is for the component's own fresh canvas), the body computes
the page's viewport at `scale ?? 1`, resizes the canvas to exactly the
viewport's height and width, and issues exactly one draw call with that page
and viewport; with `scale` omitted the viewport is taken at scale 1. If the
canvas is not mounted, nothing is drawn and nothing is touched — a no-op,
not an error. -/
theorem c8_render_sink_behaviour (gv : P → ℚ → ℚ × ℚ) (prev cur : Nat × Option ℚ)
    (canvas : Option CanvasModel) (cv : CanvasModel) (pr : StageResult P E)
    (scale : Option ℚ) :
    (prev = cur → runRenderEffect gv prev cur canvas pr scale = (canvas, none)) ∧
    (∀ pd, prev ≠ cur → cv.hasContext = true → pr = .success pd →
      runRenderEffect gv prev cur (some cv) pr scale =
        (some { cv with height := (gv pd (scale.getD 1)).1, width := (gv pd (scale.getD 1)).2 },
          some (pd, gv pd (scale.getD 1)))) ∧
    (∀ pd, prev ≠ cur → cv.hasContext = true → pr = .success pd → scale = none →
      runRenderEffect gv prev cur (some cv) pr scale =
        (some { cv with height := (gv pd 1).1, width := (gv pd 1).2 }, some (pd, gv pd 1))) ∧
    (prev ≠ cur → runRenderEffect gv prev cur none pr scale = (none, none)) := by
  refine ⟨fun hp => by simp [runRenderEffect, hp], fun pd hp hctx hpr => ?_,
    fun pd hp hctx hpr hsc => ?_, fun hp => by simp [runRenderEffect, hp, renderSinkBody]⟩
  · simp [runRenderEffect, hp, renderSinkBody, hpr, hctx]
  · subst hsc
    simp [runRenderEffect, hp, renderSinkBody, hpr, hctx]

/-- Witness for C8 at concrete inputs: viewport function `(scale, scale + 1)`,
deps changed `(0, none) → (1, some 2)`, canvas mounted with a context, page
`Success 3`, scale 2: the canvas is resized to `(2, 3)` and one draw call is
issued; with the canvas unmounted nothing happens; with unchanged deps
nothing happens. -/
theorem c8_witness :
    runRenderEffect (fun _ sc => (sc, sc + 1)) (0, none) (1, some 2)
      (some ⟨0, 0, true⟩) (.success 3 : StageResult Nat Nat) (some 2) =
      (some ⟨2, 3, true⟩, some (3, (2, 3))) ∧
    runRenderEffect (fun _ sc => (sc, sc + 1)) (1, some 2) (1, some 2)
      (some ⟨0, 0, true⟩) (.success 3 : StageResult Nat Nat) (some 2) =
      (some ⟨0, 0, true⟩, none) ∧
    runRenderEffect (fun _ sc => (sc, sc + 1)) (0, none) (1, some 2)
      none (.success 3 : StageResult Nat Nat) (some 2) = (none, none) := by
  have h := c8_render_sink_behaviour (fun _ sc => (sc, sc + 1)) (0, none) (1, some 2)
    (some ⟨0, 0, true⟩) (⟨0, 0, true⟩ : CanvasModel) (.success 3 : StageResult Nat Nat) (some 2)
  have h2 := c8_render_sink_behaviour (fun _ sc => (sc, sc + 1)) (1, some 2) (1, some 2)
    (some ⟨0, 0, true⟩) (⟨0, 0, true⟩ : CanvasModel) (.success 3 : StageResult Nat Nat) (some 2)
  refine ⟨?_, ?_, ?_⟩
  · have hb := h.2.1 3 (by simp) rfl rfl
    rw [hb]
    norm_num
  · exact h2.1 rfl
  · exact h.2.2.2 (by simp)

end ClaimRenderSink

section ClaimErrorHandling

variable {BK B D P E : Type} [DecidableEq BK]

/-- C5 (amended): Stage failures are captured, surfaced, and never retried
automatically, with the exactly-once surfacing conditional on the `onFailure`
prop being identity-stable across the renders considered: the effect's
dependency array is `[onFailure, error]` (source lines 143-147), so a new
callback identity re-invokes it with an unchanged error — see the
counterexample. In order, the conjuncts state: (1-3) a current run settling
with an error is captured into that stage's `Failure` state — the step
function is total, so no failure escapes the pipeline as an uncaught fault;
(4) whenever an error is surfaced, no stage is `Pending` and the component
renders the error fallback; (5-6) with the callback prop identity-stable at
`some c`, the `onFailure` effect does not re-fire while the `error` value is
unchanged, and fires exactly once with the new error when a failure appears;
(7-9) a failed stage keeps its exact `Failure` under every event that does
not change that stage's dependency key: no automatic retry. -/
theorem c5_failures_captured_and_surfaced [DecidableEq E] (env : Env BK B D P E)
    {s : PState BK B D P E} (hs : Reachable env s) (c : Nat) :
    (∀ i t e, s.bytesIn[i]? = some (t, RunRes.error e) → t = s.bytes.token →
      (step env s (.doneBytes i)).bytes.result = .failure e) ∧
    (∀ i t e, s.docIn[i]? = some (t, RunRes.error e) → t = s.doc.token →
      (step env s (.doneDoc i)).doc.result = .failure e) ∧
    (∀ i t e, s.pageIn[i]? = some (t, RunRes.error e) → t = s.page.token →
      (step env s (.donePage i)).page.result = .failure e) ∧
    (∀ e, errorOf s = some e → loadingAt s = false ∧ renderedAt s = .errorFallback) ∧
    (∀ ev, errKeyOf (step env s ev) = errKeyOf s →
      runOnFailureEffect (errKeyOf s, some c) (errKeyOf (step env s ev), some c) = none) ∧
    (∀ ev e, errorOf s = none → errorOf (step env s ev) = some e →
      runOnFailureEffect (errKeyOf s, some c) (errKeyOf (step env s ev), some c)
        = some (e, c)) ∧
    (∀ e ev, s.bytes.result = .failure e →
      (∀ p, ev = Ev.setProps p → p.bkey = s.props.bkey) →
      (step env s ev).bytes.result = .failure e) ∧
    (∀ e ev, s.doc.result = .failure e →
      (∀ p, ev = Ev.setProps p → p.bkey = s.props.bkey) →
      (step env s ev).doc.result = .failure e) ∧
    (∀ e ev, s.page.result = .failure e →
      (∀ p, ev = Ev.setProps p → p = s.props) →
      (step env s ev).page.result = .failure e) := by
  have h := reachable_inv env hs
  refine ⟨?_, ?_, ?_, ?_, ?_, ?_, ?_, ?_, ?_⟩
  · intro i t e hi ht
    rw [step_doneBytes_error env h hi ht]
  · intro i t e hi ht
    rw [step_doneDoc_error env h hi ht]
  · intro i t e hi ht
    rw [step_donePage_current env h hi ht]
    rfl
  · intro e he
    cases hb : s.bytes.result with
    | failure eb =>
      have hd : s.doc.result = .idle := h.docIdle.mpr (by rw [hb]; rfl)
      have hp : s.page.result = .idle := h.pageIdle.mpr (by rw [hd]; rfl)
      exact ⟨by simp [loadingAt, loadingOf, hb, hd, hp, StageResult.isPending],
        by simp [renderedAt, renderedOf, loadingOf, pipelineError, hb, hd, hp,
          StageResult.isPending]⟩
    | success bv =>
      cases hd : s.doc.result with
      | failure ed =>
        have hp : s.page.result = .idle := h.pageIdle.mpr (by rw [hd]; rfl)
        exact ⟨by simp [loadingAt, loadingOf, hb, hd, hp, StageResult.isPending],
          by simp [renderedAt, renderedOf, loadingOf, pipelineError, hb, hd, hp,
            StageResult.isPending]⟩
      | success dv =>
        cases hp : s.page.result with
        | failure ep =>
          exact ⟨by simp [loadingAt, loadingOf, hb, hd, hp, StageResult.isPending],
            by simp [renderedAt, renderedOf, loadingOf, pipelineError, hb, hd, hp,
              StageResult.isPending]⟩
        | success pv => simp [errorOf, pipelineError, hb, hd, hp] at he
        | idle => simp [errorOf, pipelineError, hb, hd, hp] at he
        | pending => simp [errorOf, pipelineError, hb, hd, hp] at he
      | idle =>
        have hp : s.page.result = .idle := h.pageIdle.mpr (by rw [hd]; rfl)
        simp [errorOf, pipelineError, hb, hd, hp] at he
      | pending =>
        have hp : s.page.result = .idle := h.pageIdle.mpr (by rw [hd]; rfl)
        simp [errorOf, pipelineError, hb, hd, hp] at he
    | idle =>
      have hd : s.doc.result = .idle := h.docIdle.mpr (by rw [hb]; rfl)
      have hp : s.page.result = .idle := h.pageIdle.mpr (by rw [hd]; rfl)
      simp [errorOf, pipelineError, hb, hd, hp] at he
    | pending =>
      have hd : s.doc.result = .idle := h.docIdle.mpr (by rw [hb]; rfl)
      have hp : s.page.result = .idle := h.pageIdle.mpr (by rw [hd]; rfl)
      simp [errorOf, pipelineError, hb, hd, hp] at he
  · intro ev h5
    simp [runOnFailureEffect, h5]
  · intro ev e h6a h6b
    have hk1 : errKeyOf s = none := (errKeyOf_none_iff s).mpr h6a
    have hmap := errKeyOf_val (step env s ev)
    rw [h6b] at hmap
    cases hke : errKeyOf (step env s ev) with
    | none =>
      rw [hke] at hmap
      simp at hmap
    | some x =>
      rw [hke] at hmap
      simp only [Option.map_some'] at hmap
      rw [hk1]
      have hxe : x.2.2 = e := Option.some.inj hmap
      simp [runOnFailureEffect, hxe]
  · intro e ev hf hkev
    cases ev with
    | setProps p =>
      rw [step_setProps_sameKey env h (hkev p rfl)]
      exact hf
    | doneBytes i =>
      have hfr := step_doneBytes_frozen env h (by rw [hf]; simp) i
      have hb : (step env s (.doneBytes i)).bytes = s.bytes := congrArg (fun x => x.2.1) hfr
      rw [hb, hf]
    | doneDoc i =>
      have hd : s.doc.result = .idle := h.docIdle.mpr (by rw [hf]; rfl)
      have hfr := step_doneDoc_frozen env h (by rw [hd]; simp) i
      have hb : (step env s (.doneDoc i)).bytes = s.bytes := congrArg (fun x => x.2.1) hfr
      rw [hb, hf]
    | donePage i =>
      have hd : s.doc.result = .idle := h.docIdle.mpr (by rw [hf]; rfl)
      have hp : s.page.result = .idle := h.pageIdle.mpr (by rw [hd]; rfl)
      have hfr := step_donePage_frozen env h (by rw [hp]; simp) i
      have hb : (step env s (.donePage i)).bytes = s.bytes := congrArg (fun x => x.2.1) hfr
      rw [hb, hf]
  · intro e ev hf hkev
    have hbs : s.bytes.result.isSuccess = true := by
      rcases Bool.eq_false_or_eq_true s.bytes.result.isSuccess with hbb | hbb
      · exact hbb
      · have hq := h.docIdle.mpr hbb
        rw [hf] at hq
        exact absurd hq (by simp)
    cases ev with
    | setProps p =>
      rw [step_setProps_sameKey env h (hkev p rfl)]
      exact hf
    | doneBytes i =>
      have hnp : s.bytes.result ≠ .pending := by
        intro hq
        rw [hq] at hbs
        exact absurd hbs (by simp [StageResult.isSuccess])
      have hfr := step_doneBytes_frozen env h hnp i
      have hb : (step env s (.doneBytes i)).doc = s.doc := congrArg (fun x => x.2.2.1) hfr
      rw [hb, hf]
    | doneDoc i =>
      have hfr := step_doneDoc_frozen env h (by rw [hf]; simp) i
      have hb : (step env s (.doneDoc i)).doc = s.doc := congrArg (fun x => x.2.2.1) hfr
      rw [hb, hf]
    | donePage i =>
      have hp : s.page.result = .idle := h.pageIdle.mpr (by rw [hf]; rfl)
      have hfr := step_donePage_frozen env h (by rw [hp]; simp) i
      have hb : (step env s (.donePage i)).doc = s.doc := congrArg (fun x => x.2.2.1) hfr
      rw [hb, hf]
  · intro e ev hf hkev
    have hds : s.doc.result.isSuccess = true := by
      rcases Bool.eq_false_or_eq_true s.doc.result.isSuccess with hbb | hbb
      · exact hbb
      · have hq := h.pageIdle.mpr hbb
        rw [hf] at hq
        exact absurd hq (by simp)
    have hbs : s.bytes.result.isSuccess = true := by
      rcases Bool.eq_false_or_eq_true s.bytes.result.isSuccess with hbb | hbb
      · exact hbb
      · have hq := h.docIdle.mpr hbb
        rw [hq] at hds
        exact absurd hds (by simp [StageResult.isSuccess])
    cases ev with
    | setProps p =>
      rw [hkev p rfl, step_setProps_same env h]
      exact hf
    | doneBytes i =>
      have hnp : s.bytes.result ≠ .pending := by
        intro hq
        rw [hq] at hbs
        exact absurd hbs (by simp [StageResult.isSuccess])
      have hfr := step_doneBytes_frozen env h hnp i
      have hb : (step env s (.doneBytes i)).page = s.page := congrArg (fun x => x.2.2.2) hfr
      rw [hb, hf]
    | doneDoc i =>
      have hnp : s.doc.result ≠ .pending := by
        intro hq
        rw [hq] at hds
        exact absurd hds (by simp [StageResult.isSuccess])
      have hfr := step_doneDoc_frozen env h hnp i
      have hb : (step env s (.doneDoc i)).page = s.page := congrArg (fun x => x.2.2.2) hfr
      rw [hb, hf]
    | donePage i =>
      have hfr := step_donePage_frozen env h (by rw [hf]; simp) i
      have hb : (step env s (.donePage i)).page = s.page := congrArg (fun x => x.2.2.2) hfr
      rw [hb, hf]

/-- Counterexample to C5 as stated: a single transport failure surfaced more
than once via `onFailure`. At the reachable state after the failing fetch,
`error` is 9. Commit 1 (the failure appears, callback id 0): the effect's
deps `[onFailure, error]` changed, so `onFailure` is invoked with error 9.
Commit 2 (the pipeline state — hence the `error` object — is unchanged, but
the host passes a new `onFailure` function identity, id 0 → 1): the deps
changed again, so the effect re-runs and invokes the callback a second time
with the very same error. So "surfaced exactly once via the onFailure
callback" is false of the code for an identity-unstable `onFailure` prop. -/
theorem c5_counterexample :
    errorOf (runP envF propsW [.doneBytes 0]) = some 9 ∧
    runOnFailureEffect (errKeyOf (runP envF propsW []), some 0)
      (errKeyOf (runP envF propsW [.doneBytes 0]), some 0) = some (9, 0) ∧
    runOnFailureEffect (errKeyOf (runP envF propsW [.doneBytes 0]), some 0)
      (errKeyOf (runP envF propsW [.doneBytes 0]), some 1) = some (9, 1) := by
  decide

/-- Witness for the amended C5 at concrete reachable states: the failing
fetch's error 9
is captured into the bytes stage's `Failure`; there the pipeline is not
loading and renders the error fallback; the `onFailure` effect fires once
with error 9 when the failure appears; and a further completion event leaves
the `Failure 9` untouched (no retry). -/
theorem c5_witness :
    (step envF (runP envF propsW []) (.doneBytes 0)).bytes.result = .failure 9 ∧
    loadingAt (runP envF propsW [.doneBytes 0]) = false ∧
    renderedAt (runP envF propsW [.doneBytes 0]) = .errorFallback ∧
    runOnFailureEffect (errKeyOf (runP envF propsW []), some 4)
      (errKeyOf (step envF (runP envF propsW []) (.doneBytes 0)), some 4) = some (9, 4) ∧
    (step envF (runP envF propsW [.doneBytes 0]) (.doneBytes 0)).bytes.result = .failure 9 := by
  have h0 := c5_failures_captured_and_surfaced envF (⟨propsW, [], rfl⟩ :
    Reachable envF (runP envF propsW [])) 4
  have h1 := c5_failures_captured_and_surfaced envF (⟨propsW, [.doneBytes 0], rfl⟩ :
    Reachable envF (runP envF propsW [.doneBytes 0])) 4
  refine ⟨h0.1 0 1 9 (by decide) (by decide),
    (h1.2.2.2.1 9 (by decide)).1,
    (h1.2.2.2.1 9 (by decide)).2,
    h0.2.2.2.2.2.1 (.doneBytes 0) 9 (by decide) (by decide),
    h1.2.2.2.2.2.2.1 9 (.doneBytes 0) (by decide) (fun p hp => nomatch hp)⟩

end ClaimErrorHandling

end Byblos
